import Mathlib

/-!
Shallow embedding of the mygrep search tool (src/main.rs) and verification of
its natural-language specification.

Lines are modelled as lists of characters (the tool assumes ASCII-stable
indexing, so character positions coincide with the byte offsets of the Rust
code).  The regex crate is an external collaborator and is modelled by an
abstract engine record; the literal matcher, the indentation analyzer, the
section/context selectors, the renderer and the search driver are translated
directly from the source.
-/

namespace MyGrep

/-- ASCII escape character, the first byte of every ANSI sequence emitted by
the colored crate. -/
def esc : Char := Char.ofNat 27

/-- ANSI wrapping as produced by the colored crate's Display implementation:
ESC `[` code `m` text ESC `[0m`. -/
def ansiWrap (code : List Char) (s : List Char) : List Char :=
  [esc, '['] ++ code ++ ['m'] ++ s ++ [esc, '[', '0', 'm']

/-- Rust str::contains, as used by line_contains_pattern in src/main.rs:
substring containment. -/
def containsSub : List Char → List Char → Bool
  | [], p => p.isPrefixOf []
  | c :: t, p => p.isPrefixOf (c :: t) || containsSub t p

/-- Rust str::match_indices: all non-overlapping occurrences of pat, found by
a left-to-right scan that restarts immediately after each match's end.  The
scan is structural over the line, one character per step; the avoid counter
is the number of upcoming positions still inside the previous match, at which
the scan must not start a new match.  The empty pattern matches at every
position (including the end), as in Rust. -/
def matchIndicesGo (pat : List Char) : List Char → Nat → Nat → List (Nat × Nat)
  | [], pos, avoid => if pat = [] ∧ avoid = 0 then [(pos, pos)] else []
  | _ :: t, pos, avoid + 1 => matchIndicesGo pat t (pos + 1) avoid
  | c :: t, pos, 0 =>
    if pat.isPrefixOf (c :: t) = true then
      if pat = [] then (pos, pos) :: matchIndicesGo pat t (pos + 1) 0
      else (pos, pos + pat.length) :: matchIndicesGo pat t (pos + 1) (pat.length - 1)
    else
      matchIndicesGo pat t (pos + 1) 0

/-- get_normal_indexes from src/main.rs: the (start, start + pattern length)
pairs of every match_indices occurrence of pat in line. -/
def getNormalIndexes (line pat : List Char) : List (Nat × Nat) :=
  matchIndicesGo pat line 0 0

/-- indentation from src/main.rs: the number of leading spaces plus the number
of leading tabs times the tab width.  Both counts start from the beginning of
the line, mirroring the two independent take_while scans of the source. -/
def indentation (line : List Char) (tabsC : Nat) : Nat :=
  (line.takeWhile (fun c => c == ' ')).length +
    (line.takeWhile (fun c => c == '\t')).length * tabsC

/-- Worker for Rust String::replace, structural over the string: the dropC
counter is the number of upcoming characters still inside the previous match,
which are consumed without being copied.  For the empty pattern the
replacement is inserted at every position, as in Rust. -/
def replaceGo (pat rep : List Char) : List Char → Nat → List Char
  | [], dropC => if pat = [] ∧ dropC = 0 then rep else []
  | _ :: t, dropC + 1 => replaceGo pat rep t dropC
  | c :: t, 0 =>
    if pat.isPrefixOf (c :: t) = true then
      if pat = [] then rep ++ c :: replaceGo pat rep t 0
      else rep ++ replaceGo pat rep t (pat.length - 1)
    else
      c :: replaceGo pat rep t 0

/-- Rust String::replace: replace every non-overlapping occurrence of pat in s
by rep, scanning left to right. -/
def replaceAll (s pat rep : List Char) : List Char :=
  replaceGo pat rep s 0

/-- The resolved configuration record handed to the search driver (the parsed
Cli of src/main.rs).  colorCode stands for the ANSI foreground code the
colored crate associates with args.color (for example 31 for red). -/
structure Config where
  pattern : List Char
  colorCode : List Char
  bold : Bool
  underline : Bool
  italic : Bool
  strike : Bool
  lineNumbers : Bool
  regex : Bool
  insensitive : Bool
  after : Nat
  before : Nat
  sectionMode : Bool
  tabsC : Nat

/-- Abstract model of the external regex crate, compiled once from the
effective pattern: whether compilation succeeds, the is_match predicate, and
the find_iter ranges. -/
structure RegexEngine where
  compiles : Bool
  isMatch : List Char → Bool
  findRanges : List Char → List (Nat × Nat)

/-- The styling loop of src/main.rs (lines 244-260): for each matched range,
the substring is extracted from the original line, wrapped in the color code,
and then each enabled attribute re-wraps that colored extraction and
substitutes it for every occurrence of the extracted text in the
progressively-mutated colored_line via String::replace. -/
def renderLine (cfg : Config) (line : List Char) (idxs : List (Nat × Nat)) : List Char :=
  idxs.foldl
    (fun colored r =>
      let pat := (line.drop r.1).take (r.2 - r.1)
      let coloredPattern := ansiWrap cfg.colorCode pat
      let c1 := if cfg.bold then replaceAll colored pat (ansiWrap ['1'] coloredPattern) else colored
      let c2 := if cfg.underline then replaceAll c1 pat (ansiWrap ['4'] coloredPattern) else c1
      let c3 := if cfg.italic then replaceAll c2 pat (ansiWrap ['3'] coloredPattern) else c2
      if cfg.strike then replaceAll c3 pat (ansiWrap ['9'] coloredPattern) else c3)
    line

/-- The 1-based line-number tag format of src/main.rs. -/
def lineTag (n : Nat) : List Char := (Nat.repr n).data ++ [':', ' ']

/-- A matched line's fully rendered form: styled ranges, then the optional
line-number tag. -/
def renderFull (cfg : Config) (idx : Nat) (line : List Char) (idxs : List (Nat × Nat)) :
    List Char :=
  let c := renderLine cfg line idxs
  if cfg.lineNumbers then lineTag (idx + 1) ++ c else c

/-- Indentation of line number j of the input (content.lines().nth(j)). -/
def lineIndent (lines : List (List Char)) (tabsC j : Nat) : Nat :=
  indentation (lines.getD j []) tabsC

/-- The backward walk of the section selector (src/main.rs lines 310-320):
scan indices m-1, m-2, ..., 0; push every visited index; when a visited index
has indentation strictly below the base it is pushed and the walk stops. -/
def sectionBackward (lines : List (List Char)) (tabsC base : Nat) : Nat → List Nat
  | 0 => []
  | i + 1 =>
    if lineIndent lines tabsC i < base then [i]
    else i :: sectionBackward lines tabsC base i

/-- The forward walk of the section selector (src/main.rs lines 323-331),
with an explicit count of remaining indices: starting at i, push each index
whose indentation is at least the base; stop (excluding) at the first index
whose indentation is strictly below the base. -/
def sectionForwardAux (lines : List (List Char)) (tabsC base : Nat) : Nat → Nat → List Nat
  | _, 0 => []
  | i, k + 1 =>
    if lineIndent lines tabsC i < base then []
    else i :: sectionForwardAux lines tabsC base (i + 1) k

/-- All indices the section branch pushes onto sections_to_print for one
match at index m (src/main.rs lines 302-331): the matched index itself, then
the backward walk, then the forward walk from m to the end of the input. -/
def sectionIndices (lines : List (List Char)) (tabsC m : Nat) : List Nat :=
  let base := lineIndent lines tabsC m
  m :: (sectionBackward lines tabsC base m ++
        sectionForwardAux lines tabsC base m (lines.length - m))

/-- Diagnostics emitted on standard error. -/
inductive StderrMsg where
  | conflictWarning
  | invalidPattern
deriving DecidableEq, Repr

/-- The mutable per-run accumulators of main: sections_to_print, found_rows,
and the stdout lines printed during the scan. -/
structure ScanState where
  secs : List Nat
  found : List (Nat × List Char)
  out : List (List Char)
deriving DecidableEq, Repr

/-- The observable result of one run: stdout lines, stderr diagnostics, and
the process exit status. -/
structure RunResult where
  stdout : List (List Char)
  stderr : List StderrMsg
  exitCode : Nat
deriving DecidableEq, Repr

/-- search_line of the scan loop: the line, lower-cased when the insensitive
flag is set. -/
def procLine (cfg : Config) (l : List Char) : List Char :=
  if cfg.insensitive then l.map Char.toLower else l

/-- pattern_to_search of the scan loop: the pattern, lower-cased when the
insensitive flag is set. -/
def effPattern (cfg : Config) : List Char :=
  if cfg.insensitive then cfg.pattern.map Char.toLower else cfg.pattern

/-- search_f dispatch of src/main.rs applied to one line: literal containment
for the literal mode, the regex engine's is_match for the regex mode, and
none when the regex pattern fails to compile (the Err case). -/
def searchLine (cfg : Config) (e : RegexEngine) (l : List Char) : Option Bool :=
  if cfg.regex then
    if e.compiles then some (e.isMatch (procLine cfg l)) else none
  else
    some (containsSub (procLine cfg l) (effPattern cfg))

/-- get_indexes_f dispatch of src/main.rs applied to one line. -/
def locateLine (cfg : Config) (e : RegexEngine) (l : List Char) : List (Nat × Nat) :=
  if cfg.regex then e.findRanges (procLine cfg l)
  else getNormalIndexes (procLine cfg l) (effPattern cfg)

/-- Indices collected by the before-lines loop (src/main.rs lines 269-277):
idx - i for i = 1..=before while i ≤ idx, then reversed into ascending
order. -/
def beforeIdxs (before idx : Nat) : List Nat :=
  (((List.range' 1 before).takeWhile (fun i => decide (i ≤ idx))).map
    (fun i => idx - i)).reverse

/-- The before-lines block printed ahead of a matched line. -/
def beforeBlock (lines : List (List Char)) (before idx : Nat) : List (List Char) :=
  if 0 < before ∧ 1 ≤ idx then (beforeIdxs before idx).map (fun i => lines.getD i [])
  else []

/-- The after-lines block printed behind a matched line (src/main.rs lines
290-297): indices idx + i for i = 1..=after, kept only while in range. -/
def afterBlock (lines : List (List Char)) (after idx : Nat) : List (List Char) :=
  if 0 < after then
    ((List.range' 1 after).filter (fun i => decide (idx + i < lines.length))).map
      (fun i => lines.getD (idx + i) [])
  else []

/-- Everything printed immediately for one match: the before block, the
rendered line itself unless in section mode, and the after block. -/
def matchOutput (cfg : Config) (lines : List (List Char)) (idx : Nat) (colored : List Char) :
    List (List Char) :=
  beforeBlock lines cfg.before idx ++
    (if cfg.sectionMode then [] else [colored]) ++ afterBlock lines cfg.after idx

/-- State update for one matched line: render it, print its context, and in
section mode record the index and walks into the accumulators. -/
def scanStep (cfg : Config) (e : RegexEngine) (lines : List (List Char)) (idx : Nat)
    (l : List Char) (st : ScanState) : ScanState :=
  let colored := renderFull cfg idx l (locateLine cfg e l)
  { secs := st.secs ++ (if cfg.sectionMode then sectionIndices lines cfg.tabsC idx else []),
    found := st.found ++ (if cfg.sectionMode then [(idx, colored)] else []),
    out := st.out ++ matchOutput cfg lines idx colored }

/-- The scan phase of main: iterate the lines in order, update the state on
each match, and abort with the error flag when search_f returns an error
(invalid regex pattern). -/
def scanLoop (cfg : Config) (e : RegexEngine) (lines : List (List Char)) :
    List (List Char) → Nat → ScanState → Bool × ScanState
  | [], _, st => (false, st)
  | l :: rest, idx, st =>
    match searchLine cfg e l with
    | none => (true, st)
    | some false => scanLoop cfg e lines rest (idx + 1) st
    | some true => scanLoop cfg e lines rest (idx + 1) (scanStep cfg e lines idx l st)

/-- Vec::sort on the collected indices. -/
def sortNat (l : List Nat) : List Nat := l.insertionSort (fun a b => a ≤ b)

/-- Vec::dedup: remove consecutive duplicates. -/
def dedupAdj : List Nat → List Nat
  | [] => []
  | [x] => [x]
  | x :: y :: t => if x = y then dedupAdj (y :: t) else x :: dedupAdj (y :: t)

/-- The plain (non-highlighted) drain rendering of a line, with the optional
line-number tag (src/main.rs lines 360-365). -/
def plainAt (cfg : Config) (lines : List (List Char)) (idx : Nat) : List Char :=
  if cfg.lineNumbers then lineTag (idx + 1) ++ lines.getD idx []
  else lines.getD idx []

/-- The drain phase of main (lines 345-367): in section mode sort and dedup
the accumulated indices, then print each one, substituting the first
found_rows entry's highlighted form where the index was a direct match. -/
def drainOut (cfg : Config) (lines : List (List Char)) (st : ScanState) :
    List (List Char) :=
  if cfg.sectionMode then
    (dedupAdj (sortNat st.secs)).map (fun idx =>
      match st.found.find? (fun x => x.1 == idx) with
      | some en => en.2
      | none => plainAt cfg lines idx)
  else []

/-- The whole run of main over already-decoded lines: resolve the
section/context conflict, scan, and drain.  An invalid regex pattern aborts
with exit status 2; otherwise the run ends with exit status 0. -/
def runMain (cfg0 : Config) (e : RegexEngine) (lines : List (List Char)) : RunResult :=
  let conflict := cfg0.sectionMode ∧ (cfg0.before ≠ 0 ∨ cfg0.after ≠ 0)
  let cfg := if conflict then { cfg0 with before := 0, after := 0 } else cfg0
  let warn : List StderrMsg := if conflict then [StderrMsg.conflictWarning] else []
  match scanLoop cfg e lines lines 0 ⟨[], [], []⟩ with
  | (true, st) => { stdout := st.out, stderr := warn ++ [StderrMsg.invalidPattern], exitCode := 2 }
  | (false, st) => { stdout := st.out ++ drainOut cfg lines st, stderr := warn, exitCode := 0 }

/-- Specification-side description of the context output (spec section 4.3):
each match's window is computed and emitted independently and the windows are
concatenated in scan order, with no deduplication across windows. -/
def windowsConcat (cfg : Config) (e : RegexEngine) (lines : List (List Char)) :
    List (List Char) → Nat → List (List Char)
  | [], _ => []
  | l :: rest, idx =>
    (if searchLine cfg e l = some true then
       matchOutput cfg lines idx (renderFull cfg idx l (locateLine cfg e l))
     else []) ++ windowsConcat cfg e lines rest (idx + 1)

/-- Specification-side description of the one shared section accumulator
(spec section 4.3): the indices touched by every match's walks, concatenated
across all matches of the run in scan order. -/
def sectionsConcat (cfg : Config) (e : RegexEngine) (lines : List (List Char)) :
    List (List Char) → Nat → List Nat
  | [], _ => []
  | l :: rest, idx =>
    (if searchLine cfg e l = some true then sectionIndices lines cfg.tabsC idx else []) ++
      sectionsConcat cfg e lines rest (idx + 1)

/-- Specification-side description of found_rows: one entry per direct match,
holding the match's own pre-rendered highlighted form. -/
def foundsConcat (cfg : Config) (e : RegexEngine) (lines : List (List Char)) :
    List (List Char) → Nat → List (Nat × List Char)
  | [], _ => []
  | l :: rest, idx =>
    (if searchLine cfg e l = some true then
       [(idx, renderFull cfg idx l (locateLine cfg e l))]
     else []) ++ foundsConcat cfg e lines rest (idx + 1)

/-! ## Helper lemmas on lists -/

lemma isPrefixOf_eq_take : ∀ {p l : List Char}, p.isPrefixOf l = true →
    l.take p.length = p := by
  intro p
  induction p with
  | nil => intro l _; simp
  | cons a as ih =>
    intro l h
    cases l with
    | nil => simp [List.isPrefixOf] at h
    | cons b bs =>
      simp only [List.isPrefixOf, Bool.and_eq_true, beq_iff_eq] at h
      simp only [List.length_cons, List.take_succ_cons, ih h.2, h.1]

lemma takeWhile_take_replicate (c : Char) (l : List Char) :
    l.take ((l.takeWhile (fun x => x == c)).length) =
      List.replicate ((l.takeWhile (fun x => x == c)).length) c := by
  induction l with
  | nil => simp
  | cons a t ih =>
    by_cases h : a = c
    · subst h
      simp only [List.takeWhile_cons, beq_self_eq_true, if_true, List.length_cons,
        List.take_succ_cons, List.replicate_succ, List.cons.injEq, true_and]
      exact ih
    · have hb : (a == c) = false := beq_eq_false_iff_ne.mpr h
      simp [List.takeWhile_cons, hb]

lemma take_replicate_le (c : Char) : ∀ (n : Nat) (l : List Char),
    l.take n = List.replicate n c → n ≤ (l.takeWhile (fun x => x == c)).length := by
  intro n
  induction n with
  | zero => intro l _; exact Nat.zero_le _
  | succ n ih =>
    intro l h
    cases l with
    | nil => simp [List.replicate_succ] at h
    | cons a t =>
      rw [List.take_succ_cons, List.replicate_succ] at h
      have ha : a = c := (List.cons.injEq _ _ _ _ ▸ h).1
      have ht : t.take n = List.replicate n c := (List.cons.injEq _ _ _ _ ▸ h).2
      subst ha
      simp only [List.takeWhile_cons, beq_self_eq_true, if_true, List.length_cons]
      exact Nat.succ_le_succ (ih t ht)

/-! ## C8: the indentation analyzer -/

/-- C8: for every line and every tab width, the indentation operation returns
the length of the maximal prefix of the line consisting of space characters,
plus tab width times the length of the maximal prefix of the line consisting
of tab characters, summed. -/
theorem claim_C8_indentation (line : List Char) (t : Nat) :
    ∃ s tb : Nat,
      indentation line t = s + t * tb ∧
      line.take s = List.replicate s ' ' ∧
      (∀ n, line.take n = List.replicate n ' ' → n ≤ s) ∧
      line.take tb = List.replicate tb '\t' ∧
      (∀ n, line.take n = List.replicate n '\t' → n ≤ tb) := by
  refine ⟨(line.takeWhile (fun x => x == ' ')).length,
          (line.takeWhile (fun x => x == '\t')).length, ?_, ?_, ?_, ?_, ?_⟩
  · simp [indentation, Nat.mul_comm]
  · exact takeWhile_take_replicate ' ' line
  · exact fun n h => take_replicate_le ' ' n line h
  · exact takeWhile_take_replicate '\t' line
  · exact fun n h => take_replicate_le '\t' n line h

/-! ## C5: the literal locate operation -/

lemma matchIndicesGo_mem (pat : List Char) (l : List Char) (pos avoid : Nat) :
    ∀ r ∈ matchIndicesGo pat l pos avoid,
      pos + avoid ≤ r.1 ∧ r.2 = r.1 + pat.length ∧
        (l.drop (r.1 - pos)).take pat.length = pat := by
  induction l, pos, avoid using matchIndicesGo.induct pat with
  | case1 pos avoid h =>
    intro r hr
    rw [matchIndicesGo, if_pos h] at hr
    have he := List.mem_singleton.mp hr
    subst he
    obtain ⟨hp, ha⟩ := h
    subst hp
    simp [ha]
  | case2 pos avoid h =>
    intro r hr
    rw [matchIndicesGo, if_neg h] at hr
    simp at hr
  | case3 hd t pos avoid ih =>
    intro r hr
    rw [matchIndicesGo] at hr
    obtain ⟨h1, h2, h3⟩ := ih r hr
    refine ⟨by omega, h2, ?_⟩
    have harith : r.1 - pos = (r.1 - (pos + 1)) + 1 := by omega
    rw [harith, List.drop_succ_cons]
    exact h3
  | case4 c t pos hpre hpat ih =>
    intro r hr
    rw [matchIndicesGo, if_pos hpre, if_pos hpat] at hr
    rcases List.mem_cons.mp hr with he | ht
    · subst he
      simp [hpat]
    · obtain ⟨h1, h2, h3⟩ := ih r ht
      subst hpat
      refine ⟨by omega, by simpa using h2, by simp⟩
  | case5 c t pos hpre hpat ih =>
    intro r hr
    rw [matchIndicesGo, if_pos hpre, if_neg hpat] at hr
    rcases List.mem_cons.mp hr with he | ht
    · subst he
      refine ⟨by simp, rfl, ?_⟩
      simp [isPrefixOf_eq_take hpre]
    · obtain ⟨h1, h2, h3⟩ := ih r ht
      have hlen : 0 < pat.length := List.length_pos.mpr hpat
      refine ⟨by omega, h2, ?_⟩
      have harith : r.1 - pos = (r.1 - (pos + 1)) + 1 := by omega
      rw [harith, List.drop_succ_cons]
      exact h3
  | case6 c t pos hpre ih =>
    intro r hr
    rw [matchIndicesGo, if_neg hpre] at hr
    obtain ⟨h1, h2, h3⟩ := ih r hr
    refine ⟨by omega, h2, ?_⟩
    have harith : r.1 - pos = (r.1 - (pos + 1)) + 1 := by omega
    rw [harith, List.drop_succ_cons]
    exact h3

lemma matchIndicesGo_pairwise (pat : List Char) (l : List Char) (pos avoid : Nat) :
    List.Pairwise (fun a b : Nat × Nat => a.1 < b.1 ∧ a.2 ≤ b.1)
      (matchIndicesGo pat l pos avoid) := by
  induction l, pos, avoid using matchIndicesGo.induct pat with
  | case1 pos avoid h => rw [matchIndicesGo, if_pos h]; simp
  | case2 pos avoid h => rw [matchIndicesGo, if_neg h]; simp
  | case3 hd t pos avoid ih => rw [matchIndicesGo]; exact ih
  | case4 c t pos hpre hpat ih =>
    rw [matchIndicesGo, if_pos hpre, if_pos hpat]
    refine List.Pairwise.cons ?_ ih
    intro b hb
    obtain ⟨hb1, _, _⟩ := matchIndicesGo_mem pat _ _ _ b hb
    exact ⟨show pos < b.1 by omega, show pos ≤ b.1 by omega⟩
  | case5 c t pos hpre hpat ih =>
    rw [matchIndicesGo, if_pos hpre, if_neg hpat]
    refine List.Pairwise.cons ?_ ih
    intro b hb
    obtain ⟨hb1, _, _⟩ := matchIndicesGo_mem pat _ _ _ b hb
    have hlen : 0 < pat.length := List.length_pos.mpr hpat
    exact ⟨show pos < b.1 by omega, show pos + pat.length ≤ b.1 by omega⟩
  | case6 c t pos hpre ih =>
    rw [matchIndicesGo, if_neg hpre]
    exact ih

/-- C5: for every literal pattern and line, the literal locate operation
returns ranges that are non-overlapping and sorted strictly ascending by
start, each range's extracted substring equals the pattern exactly, and the
scan restarts after each match's end, so pattern aa in line aaa yields
exactly the single range (0, 2). -/
theorem claim_C5_literal_locate (pat line : List Char) :
    List.Pairwise (fun a b : Nat × Nat => a.1 < b.1 ∧ a.2 ≤ b.1) (getNormalIndexes line pat) ∧
    (∀ r ∈ getNormalIndexes line pat,
        r.2 = r.1 + pat.length ∧ (line.drop r.1).take pat.length = pat) ∧
    getNormalIndexes ("aaa").data ("aa").data = [(0, 2)] := by
  refine ⟨matchIndicesGo_pairwise pat line 0 0, ?_, by decide⟩
  intro r hr
  obtain ⟨_, h2, h3⟩ := matchIndicesGo_mem pat line 0 0 r hr
  rw [Nat.sub_zero] at h3
  exact ⟨h2, h3⟩

/-! ## C1: the section selector -/

lemma sectionBackward_mem (lines : List (List Char)) (tabsC base : Nat) :
    ∀ (m i : Nat),
      i ∈ sectionBackward lines tabsC base m ↔
        i < m ∧ ∀ j, i < j → j < m → base ≤ lineIndent lines tabsC j := by
  intro m
  induction m with
  | zero => intro i; simp [sectionBackward]
  | succ m ih =>
    intro i
    rw [sectionBackward]
    by_cases h : lineIndent lines tabsC m < base
    · rw [if_pos h]
      simp only [List.mem_singleton]
      constructor
      · rintro rfl
        exact ⟨Nat.lt_succ_self i, fun j hj1 hj2 => by omega⟩
      · rintro ⟨hi, hall⟩
        by_contra hne
        have hb : base ≤ lineIndent lines tabsC m := hall m (by omega) (by omega)
        omega
    · rw [if_neg h]
      simp only [List.mem_cons]
      constructor
      · rintro (rfl | hmem)
        · exact ⟨Nat.lt_succ_self i, fun j hj1 hj2 => by omega⟩
        · obtain ⟨hi, hall⟩ := (ih i).mp hmem
          refine ⟨by omega, fun j hj1 hj2 => ?_⟩
          rcases Nat.lt_succ_iff_lt_or_eq.mp hj2 with hj | hj
          · exact hall j hj1 hj
          · subst hj; omega
      · rintro ⟨hi, hall⟩
        by_cases he : i = m
        · exact Or.inl he
        · exact Or.inr ((ih i).mpr ⟨by omega, fun j hj1 hj2 => hall j hj1 (by omega)⟩)

lemma sectionForwardAux_mem (lines : List (List Char)) (tabsC base : Nat) :
    ∀ (k s i : Nat),
      i ∈ sectionForwardAux lines tabsC base s k ↔
        s ≤ i ∧ i < s + k ∧ ∀ j, s ≤ j → j ≤ i → base ≤ lineIndent lines tabsC j := by
  intro k
  induction k with
  | zero =>
    intro s i
    simp only [sectionForwardAux, List.not_mem_nil, false_iff]
    rintro ⟨h1, h2, _⟩
    omega
  | succ k ih =>
    intro s i
    rw [sectionForwardAux]
    by_cases h : lineIndent lines tabsC s < base
    · rw [if_pos h]
      simp only [List.not_mem_nil, false_iff]
      rintro ⟨h1, h2, hall⟩
      have hb := hall s (Nat.le_refl s) h1
      omega
    · rw [if_neg h]
      simp only [List.mem_cons]
      constructor
      · rintro (rfl | hmem)
        · refine ⟨Nat.le_refl i, by omega, fun j hj1 hj2 => ?_⟩
          have hji : j = i := by omega
          subst hji
          omega
        · obtain ⟨h1, h2, hall⟩ := (ih (s + 1) i).mp hmem
          refine ⟨by omega, by omega, fun j hj1 hj2 => ?_⟩
          by_cases hj : j = s
          · subst hj; omega
          · exact hall j (by omega) hj2
      · rintro ⟨h1, h2, hall⟩
        by_cases he : i = s
        · exact Or.inl he
        · exact Or.inr ((ih (s + 1) i).mpr ⟨by omega, by omega,
            fun j hj1 hj2 => hall j (by omega) hj2⟩)

/-- C1: in section mode, for every input, tab width and matched line index m
with base indentation B, the per-match walk gathers exactly: backward, every
index below m until and including the first one whose indentation is strictly
below B (equivalently, every i < m all of whose strict successors below m
have indentation at least B); forward, every index from m on whose whole
stretch back to m stays at indentation at least B, stopping before the first
index with indentation below B or at end of file. -/
theorem claim_C1_section_selector (lines : List (List Char)) (tabsC m : Nat)
    (hm : m < lines.length) (i : Nat) :
    i ∈ sectionIndices lines tabsC m ↔
      ((i < m ∧ ∀ j, i < j → j < m →
          lineIndent lines tabsC m ≤ lineIndent lines tabsC j) ∨
       (m ≤ i ∧ i < lines.length ∧ ∀ j, m ≤ j → j ≤ i →
          lineIndent lines tabsC m ≤ lineIndent lines tabsC j)) := by
  simp only [sectionIndices, List.mem_cons, List.mem_append]
  rw [sectionBackward_mem, sectionForwardAux_mem]
  constructor
  · rintro (rfl | hback | hfwd)
    · refine Or.inr ⟨Nat.le_refl i, hm, fun j hj1 hj2 => ?_⟩
      have hji : j = i := by omega
      subst hji
      exact Nat.le_refl _
    · exact Or.inl hback
    · obtain ⟨h1, h2, h3⟩ := hfwd
      exact Or.inr ⟨h1, by omega, h3⟩
  · rintro (hback | hfwd)
    · exact Or.inr (Or.inl hback)
    · obtain ⟨h1, h2, h3⟩ := hfwd
      exact Or.inr (Or.inr ⟨h1, by omega, h3⟩)

/-- The five-line input of the specification's section-boundary example, with
indentation widths 0, 2, 2, 4, 0 at tab width 4. -/
def linesC1 : List (List Char) := ["a".data, "  b".data, "  c".data, "    d".data, "e".data]

/-- Witness for C1 at the specification's boundary example: a match at index
2 (indentation 2); index 0 (indentation 0) is selected as the included
backward boundary line. -/
theorem claim_C1_witness :
    2 < linesC1.length ∧
      (0 ∈ sectionIndices linesC1 4 2 ↔
        ((0 < 2 ∧ ∀ j, 0 < j → j < 2 →
            lineIndent linesC1 4 2 ≤ lineIndent linesC1 4 j) ∨
         (2 ≤ 0 ∧ 0 < linesC1.length ∧ ∀ j, 2 ≤ j → j ≤ 0 →
            lineIndent linesC1 4 2 ≤ lineIndent linesC1 4 j))) :=
  ⟨by decide, claim_C1_section_selector linesC1 4 2 (by decide) 0⟩

/-! ## C4: the renderer's content-based replacement -/

/-- Literal search for the single character a, default styling (bold on, red
color code 31), as resolved by the argument parser's defaults. -/
def cfgC4 : Config :=
  { pattern := "a".data, colorCode := "31".data, bold := true, underline := false,
    italic := false, strike := false, lineNumbers := false, regex := false,
    insensitive := false, after := 0, before := 0, sectionMode := false, tabsC := 4 }

/-- The correct once-styled form of the letter a: bold wrapping around the
red color wrapping. -/
def styledA : List Char := ansiWrap "1".data (ansiWrap "31".data "a".data)

/-- C4 (code_bug evidence): on the line aa with pattern a, the two ranges
(0,1) and (1,2) are located, but the second range's content-based global
replacement rewrites the letter a inside the first range's already-inserted
markup: the output contains a color-open sequence immediately followed by a
bold-open sequence (markup nested inside markup, i.e. re-styled text) and is
not the correct concatenation of two once-styled fragments. -/
theorem claim_C4_renderer_restyles :
    getNormalIndexes "aa".data cfgC4.pattern = [(0, 1), (1, 2)] ∧
    containsSub (renderLine cfgC4 "aa".data (getNormalIndexes "aa".data cfgC4.pattern))
        [esc, '[', '3', '1', 'm', esc, '[', '1', 'm'] = true ∧
    renderLine cfgC4 "aa".data (getNormalIndexes "aa".data cfgC4.pattern) ≠
      styledA ++ styledA := by
  decide

/-! ## Search-driver lemmas and claims C3, C9, C10 -/

lemma scanLoop_noerr (cfg : Config) (e : RegexEngine) (lines : List (List Char)) :
    ∀ (rem : List (List Char)) (idx : Nat) (st : ScanState),
      (∀ l ∈ rem, searchLine cfg e l ≠ none) →
      (scanLoop cfg e lines rem idx st).1 = false := by
  intro rem
  induction rem with
  | nil => intro idx st _; rfl
  | cons l rest ih =>
    intro idx st h
    have hrest : ∀ x ∈ rest, searchLine cfg e x ≠ none :=
      fun x hx => h x (List.mem_cons_of_mem l hx)
    cases hs : searchLine cfg e l with
    | none => exact absurd hs (h l (List.mem_cons_self l rest))
    | some b =>
      cases b
      · rw [scanLoop, hs]
        exact ih (idx + 1) st hrest
      · rw [scanLoop, hs]
        exact ih (idx + 1) _ hrest

lemma scanLoop_plain (cfg : Config) (e : RegexEngine) (lines : List (List Char))
    (hsec : cfg.sectionMode = false) :
    ∀ (rem : List (List Char)) (idx : Nat) (st : ScanState),
      (∀ l ∈ rem, searchLine cfg e l ≠ none) →
      scanLoop cfg e lines rem idx st =
        (false, { secs := st.secs, found := st.found,
                  out := st.out ++ windowsConcat cfg e lines rem idx }) := by
  intro rem
  induction rem with
  | nil => intro idx st _; simp [scanLoop, windowsConcat]
  | cons l rest ih =>
    intro idx st h
    have hrest : ∀ x ∈ rest, searchLine cfg e x ≠ none :=
      fun x hx => h x (List.mem_cons_of_mem l hx)
    cases hs : searchLine cfg e l with
    | none => exact absurd hs (h l (List.mem_cons_self l rest))
    | some b =>
      cases b
      · simp only [scanLoop, hs]
        rw [ih (idx + 1) st hrest]
        simp only [windowsConcat, hs]
        simp
      · simp only [scanLoop, hs]
        rw [ih (idx + 1) (scanStep cfg e lines idx l st) hrest]
        simp only [windowsConcat, hs]
        simp [scanStep, hsec]

lemma scanLoop_section (cfg : Config) (e : RegexEngine) (lines : List (List Char))
    (hsec : cfg.sectionMode = true) (hb : cfg.before = 0) (ha : cfg.after = 0) :
    ∀ (rem : List (List Char)) (idx : Nat) (st : ScanState),
      (∀ l ∈ rem, searchLine cfg e l ≠ none) →
      scanLoop cfg e lines rem idx st =
        (false, { secs := st.secs ++ sectionsConcat cfg e lines rem idx,
                  found := st.found ++ foundsConcat cfg e lines rem idx,
                  out := st.out }) := by
  intro rem
  induction rem with
  | nil => intro idx st _; simp [scanLoop, sectionsConcat, foundsConcat]
  | cons l rest ih =>
    intro idx st h
    have hrest : ∀ x ∈ rest, searchLine cfg e x ≠ none :=
      fun x hx => h x (List.mem_cons_of_mem l hx)
    cases hs : searchLine cfg e l with
    | none => exact absurd hs (h l (List.mem_cons_self l rest))
    | some b =>
      cases b
      · simp only [scanLoop, hs]
        rw [ih (idx + 1) st hrest]
        simp only [sectionsConcat, foundsConcat, hs]
        simp
      · simp only [scanLoop, hs]
        rw [ih (idx + 1) (scanStep cfg e lines idx l st) hrest]
        simp only [sectionsConcat, foundsConcat, hs]
        simp [scanStep, hsec, matchOutput, beforeBlock, afterBlock, hb, ha]

def cfgC3 : Config :=
  { pattern := "(".data, colorCode := "31".data, bold := true, underline := false,
    italic := false, strike := false, lineNumbers := false, regex := true,
    insensitive := false, after := 0, before := 0, sectionMode := false, tabsC := 4 }

def engBad : RegexEngine :=
  { compiles := false, isMatch := fun _ => false, findRanges := fun _ => [] }

theorem claim_C3_counterexample :
    (runMain cfgC3 engBad []).exitCode = 0 ∧ (runMain cfgC3 engBad []).stderr = [] ∧
    (runMain cfgC3 engBad []).stdout = [] := by
  refine ⟨rfl, rfl, rfl⟩

theorem claim_C3_invalid_regex (cfg : Config) (e : RegexEngine)
    (lines : List (List Char)) (hr : cfg.regex = true) (hc : e.compiles = false)
    (hne : lines ≠ []) :
    (runMain cfg e lines).exitCode = 2 ∧ (runMain cfg e lines).stdout = [] ∧
    (runMain cfg e lines).stderr.count StderrMsg.invalidPattern = 1 := by
  obtain ⟨l, rest, rfl⟩ := List.exists_cons_of_ne_nil hne
  by_cases hco : cfg.sectionMode ∧ (cfg.before ≠ 0 ∨ cfg.after ≠ 0)
  · have hsl : searchLine { cfg with before := 0, after := 0 } e l = none := by
      simp [searchLine, hr, hc]
    simp only [runMain, if_pos hco, scanLoop, hsl]
    refine ⟨by simp, by simp, by decide⟩
  · have hsl : searchLine cfg e l = none := by
      simp [searchLine, hr, hc]
    simp only [runMain, if_neg hco, scanLoop, hsl]
    refine ⟨by simp, by simp, by decide⟩

theorem claim_C3_witness :
    cfgC3.regex = true ∧ engBad.compiles = false ∧ (["x".data] : List (List Char)) ≠ [] ∧
    ((runMain cfgC3 engBad ["x".data]).exitCode = 2 ∧
     (runMain cfgC3 engBad ["x".data]).stdout = [] ∧
     (runMain cfgC3 engBad ["x".data]).stderr.count StderrMsg.invalidPattern = 1) :=
  ⟨rfl, rfl, by decide, claim_C3_invalid_regex cfgC3 engBad ["x".data] rfl rfl (by decide)⟩

theorem claim_C9_conflict (cfg : Config) (e : RegexEngine) (lines : List (List Char))
    (hs : cfg.sectionMode = true) (hba : cfg.before ≠ 0 ∨ cfg.after ≠ 0) :
    (runMain cfg e lines).stderr =
      StderrMsg.conflictWarning ::
        (runMain { cfg with before := 0, after := 0 } e lines).stderr ∧
    (runMain cfg e lines).stdout =
      (runMain { cfg with before := 0, after := 0 } e lines).stdout ∧
    (runMain cfg e lines).exitCode =
      (runMain { cfg with before := 0, after := 0 } e lines).exitCode := by
  have hco : cfg.sectionMode ∧ (cfg.before ≠ 0 ∨ cfg.after ≠ 0) := ⟨by rw [hs], hba⟩
  have hco2 : ¬ (({ cfg with before := 0, after := 0 } : Config).sectionMode ∧
      (({ cfg with before := 0, after := 0 } : Config).before ≠ 0 ∨
       ({ cfg with before := 0, after := 0 } : Config).after ≠ 0)) := by
    simp
  simp only [runMain, if_pos hco, if_neg hco2]
  cases hsl : scanLoop { cfg with before := 0, after := 0 } e lines lines 0 ⟨[], [], []⟩ with
  | mk b st =>
    cases b
    · refine ⟨?_, ?_, ?_⟩ <;> rfl
    · refine ⟨?_, ?_, ?_⟩ <;> rfl

def cfgC9 : Config :=
  { pattern := "b".data, colorCode := "31".data, bold := true, underline := false,
    italic := false, strike := false, lineNumbers := false, regex := false,
    insensitive := false, after := 1, before := 0, sectionMode := true, tabsC := 4 }

def engTriv : RegexEngine :=
  { compiles := true, isMatch := fun _ => false, findRanges := fun _ => [] }

theorem claim_C9_witness :
    cfgC9.sectionMode = true ∧ (cfgC9.before ≠ 0 ∨ cfgC9.after ≠ 0) ∧
    ((runMain cfgC9 engTriv ["b".data]).stderr =
      StderrMsg.conflictWarning ::
        (runMain { cfgC9 with before := 0, after := 0 } engTriv ["b".data]).stderr ∧
     (runMain cfgC9 engTriv ["b".data]).stdout =
      (runMain { cfgC9 with before := 0, after := 0 } engTriv ["b".data]).stdout ∧
     (runMain cfgC9 engTriv ["b".data]).exitCode =
      (runMain { cfgC9 with before := 0, after := 0 } engTriv ["b".data]).exitCode) :=
  ⟨rfl, Or.inr (by decide), claim_C9_conflict cfgC9 engTriv ["b".data] rfl (Or.inr (by decide))⟩

theorem claim_C10_exit_zero (cfg : Config) (e : RegexEngine) (lines : List (List Char))
    (h : cfg.regex = true → e.compiles = true) :
    (runMain cfg e lines).exitCode = 0 ∧
    StderrMsg.invalidPattern ∉ (runMain cfg e lines).stderr := by
  by_cases hco : cfg.sectionMode ∧ (cfg.before ≠ 0 ∨ cfg.after ≠ 0)
  · have hok : ∀ l ∈ lines, searchLine { cfg with before := 0, after := 0 } e l ≠ none := by
      intro l _
      cases hr : cfg.regex with
      | false => simp [searchLine, hr]
      | true => simp [searchLine, hr, h hr]
    have hz := scanLoop_noerr { cfg with before := 0, after := 0 } e lines lines 0 ⟨[], [], []⟩ hok
    simp only [runMain, if_pos hco]
    cases hsl : scanLoop { cfg with before := 0, after := 0 } e lines lines 0 ⟨[], [], []⟩ with
    | mk b st =>
      rw [hsl] at hz
      simp only at hz
      subst hz
      exact ⟨rfl, by simp⟩
  · have hok : ∀ l ∈ lines, searchLine cfg e l ≠ none := by
      intro l _
      cases hr : cfg.regex with
      | false => simp [searchLine, hr]
      | true => simp [searchLine, hr, h hr]
    have hz := scanLoop_noerr cfg e lines lines 0 ⟨[], [], []⟩ hok
    simp only [runMain, if_neg hco]
    cases hsl : scanLoop cfg e lines lines 0 ⟨[], [], []⟩ with
    | mk b st =>
      rw [hsl] at hz
      simp only at hz
      subst hz
      exact ⟨rfl, by simp⟩

theorem claim_C10_witness :
    (cfgC9.regex = true → engTriv.compiles = true) ∧
    ((runMain cfgC9 engTriv ["a".data]).exitCode = 0 ∧
     StderrMsg.invalidPattern ∉ (runMain cfgC9 engTriv ["a".data]).stderr) :=
  ⟨fun _ => rfl, claim_C10_exit_zero cfgC9 engTriv ["a".data] (fun _ => rfl)⟩

/-! ## C2: the section drain -/

lemma sortNat_mem (l : List Nat) (x : Nat) : x ∈ sortNat l ↔ x ∈ l :=
  List.mem_insertionSort (fun a b => a ≤ b)

lemma sortNat_sorted (l : List Nat) : List.Sorted (fun a b => a ≤ b) (sortNat l) :=
  List.sorted_insertionSort (fun a b => a ≤ b) l

lemma dedupAdj_mem : ∀ (l : List Nat) (x : Nat), x ∈ dedupAdj l ↔ x ∈ l := by
  intro l
  induction l with
  | nil => intro x; simp [dedupAdj]
  | cons a t ih =>
    cases t with
    | nil => intro x; simp [dedupAdj]
    | cons b t2 =>
      intro x
      rw [dedupAdj]
      by_cases hab : a = b
      · rw [if_pos hab]
        subst hab
        rw [ih x]
        simp [List.mem_cons]
      · rw [if_neg hab]
        simp [List.mem_cons, ih x]

lemma dedupAdj_sorted : ∀ (l : List Nat), List.Sorted (fun a b => a ≤ b) l →
    List.Pairwise (fun a b => a < b) (dedupAdj l) := by
  intro l
  induction l with
  | nil => intro _; simp [dedupAdj]
  | cons a t ih =>
    cases t with
    | nil => intro _; simp [dedupAdj]
    | cons b t2 =>
      intro hsort
      obtain ⟨hhead, htail⟩ := List.pairwise_cons.mp hsort
      obtain ⟨hhead2, _⟩ := List.pairwise_cons.mp htail
      rw [dedupAdj]
      by_cases hab : a = b
      · rw [if_pos hab]
        exact ih htail
      · rw [if_neg hab]
        refine List.Pairwise.cons ?_ (ih htail)
        intro y hy
        rw [dedupAdj_mem] at hy
        rcases List.mem_cons.mp hy with rfl | hy2
        · exact Nat.lt_of_le_of_ne (hhead y (List.mem_cons_self y t2)) hab
        · have hb2 : b ≤ y := hhead2 y hy2
          have hab2 : a ≤ b := hhead b (List.mem_cons_self b t2)
          omega

/-- C2: in section mode, the indices gathered across all matches accumulate
into the one shared sections_to_print collection; found_rows holds one entry
per direct match with its pre-rendered highlighted form; after the scan the
collection is sorted ascending and deduplicated (the printed index list is
strictly ascending, so each surviving index is printed exactly once), and
each index is rendered with the highlighted form when it was a direct match
and its plain text otherwise. -/
theorem claim_C2_section_drain (cfg : Config) (e : RegexEngine) (lines : List (List Char))
    (hs : cfg.sectionMode = true) (hb : cfg.before = 0) (ha : cfg.after = 0)
    (hok : ∀ l ∈ lines, searchLine cfg e l ≠ none) :
    ∃ (ixs : List Nat) (st : ScanState),
      scanLoop cfg e lines lines 0 ⟨[], [], []⟩ = (false, st) ∧
      st.secs = sectionsConcat cfg e lines lines 0 ∧
      st.found = foundsConcat cfg e lines lines 0 ∧
      (runMain cfg e lines).stdout =
        ixs.map (fun idx =>
          match st.found.find? (fun x => x.1 == idx) with
          | some en => en.2
          | none => plainAt cfg lines idx) ∧
      List.Pairwise (fun a b => a < b) ixs ∧
      (∀ i, i ∈ ixs ↔ i ∈ st.secs) := by
  have hsl := scanLoop_section cfg e lines hs hb ha lines 0 ⟨[], [], []⟩ hok
  have hne : ¬ (cfg.sectionMode ∧ (cfg.before ≠ 0 ∨ cfg.after ≠ 0)) := by
    simp [hb, ha]
  refine ⟨dedupAdj (sortNat (sectionsConcat cfg e lines lines 0)), _, hsl, rfl, rfl,
    ?_, ?_, ?_⟩
  · simp only [runMain, if_neg hne]
    rw [hsl]
    simp only [drainOut, hs, if_true, List.nil_append]
  · exact dedupAdj_sorted _ (sortNat_sorted _)
  · intro i
    rw [dedupAdj_mem, sortNat_mem]
    exact Iff.rfl

def cfgC2 : Config :=
  { pattern := "b".data, colorCode := "31".data, bold := true, underline := false,
    italic := false, strike := false, lineNumbers := false, regex := false,
    insensitive := false, after := 0, before := 0, sectionMode := true, tabsC := 4 }

def linesC2 : List (List Char) := ["a".data, " b".data, "c".data]

/-- Witness for C2: a three-line section run with a single match. -/
theorem claim_C2_witness :
    cfgC2.sectionMode = true ∧ cfgC2.before = 0 ∧ cfgC2.after = 0 ∧
    (∀ l ∈ linesC2, searchLine cfgC2 engTriv l ≠ none) ∧
    (∃ (ixs : List Nat) (st : ScanState),
      scanLoop cfgC2 engTriv linesC2 linesC2 0 ⟨[], [], []⟩ = (false, st) ∧
      st.secs = sectionsConcat cfgC2 engTriv linesC2 linesC2 0 ∧
      st.found = foundsConcat cfgC2 engTriv linesC2 linesC2 0 ∧
      (runMain cfgC2 engTriv linesC2).stdout =
        ixs.map (fun idx =>
          match st.found.find? (fun x => x.1 == idx) with
          | some en => en.2
          | none => plainAt cfgC2 linesC2 idx) ∧
      List.Pairwise (fun a b => a < b) ixs ∧
      (∀ i, i ∈ ixs ↔ i ∈ st.secs)) :=
  ⟨rfl, rfl, rfl, by decide,
   claim_C2_section_drain cfgC2 engTriv linesC2 rfl rfl rfl (by decide)⟩

/-! ## C6 and C7: context windows -/

lemma runMain_stdout_plain (cfg : Config) (e : RegexEngine) (lines : List (List Char))
    (hsec : cfg.sectionMode = false)
    (hok : ∀ l ∈ lines, searchLine cfg e l ≠ none) :
    (runMain cfg e lines).stdout = windowsConcat cfg e lines lines 0 := by
  have hne : ¬ (cfg.sectionMode ∧ (cfg.before ≠ 0 ∨ cfg.after ≠ 0)) := by simp [hsec]
  have hsl := scanLoop_plain cfg e lines hsec lines 0 ⟨[], [], []⟩ hok
  simp only [runMain, if_neg hne]
  rw [hsl]
  simp [drainOut, hsec]

lemma windowsConcat_append (cfg : Config) (e : RegexEngine) (lines : List (List Char)) :
    ∀ (A B : List (List Char)) (idx : Nat),
      windowsConcat cfg e lines (A ++ B) idx =
        windowsConcat cfg e lines A idx ++ windowsConcat cfg e lines B (idx + A.length) := by
  intro A
  induction A with
  | nil => intro B idx; simp [windowsConcat]
  | cons l rest ih =>
    intro B idx
    have harith : idx + (rest.length + 1) = idx + 1 + rest.length := by omega
    simp only [List.cons_append, windowsConcat, List.append_eq, ih, List.append_assoc,
      List.length_cons, harith]

lemma windowsConcat_nomatch (cfg : Config) (e : RegexEngine) (lines : List (List Char)) :
    ∀ (A : List (List Char)) (idx : Nat),
      (∀ l ∈ A, searchLine cfg e l ≠ some true) →
      windowsConcat cfg e lines A idx = [] := by
  intro A
  induction A with
  | nil => intro idx _; rfl
  | cons l rest ih =>
    intro idx h
    rw [windowsConcat, if_neg (h l (List.mem_cons_self l rest)),
      ih (idx + 1) (fun x hx => h x (List.mem_cons_of_mem l hx))]
    rfl

lemma rev_map_range (i : Nat) : ∀ (b s : Nat), s + b ≤ i + 1 →
    ((List.range' s b).map (fun k => i - k)).reverse = List.range' (i + 1 - (s + b)) b := by
  intro b
  induction b with
  | zero => intro s _; simp
  | succ b ih =>
    intro s h
    rw [List.range'_succ]
    simp only [List.map_cons, List.reverse_cons]
    rw [ih (s + 1) (by omega)]
    rw [List.range'_concat]
    congr 1
    · congr 1
      omega
    · simp only [List.cons.injEq, and_true]
      omega

lemma getD_range_shift (lines : List (List Char)) (i : Nat) : ∀ (a s : Nat),
    (List.range' s a).map (fun k => lines.getD (i + k) []) =
      (List.range' (i + s) a).map (fun j => lines.getD j []) := by
  intro a
  induction a with
  | zero => intro s; simp
  | succ a ih =>
    intro s
    rw [List.range'_succ, List.range'_succ]
    simp only [List.map_cons]
    rw [ih (s + 1)]
    have harith : i + (s + 1) = i + s + 1 := by omega
    rw [harith]

lemma beforeBlock_eq (lines : List (List Char)) (b i : Nat) (hb : b ≤ i) :
    beforeBlock lines b i = (List.range' (i - b) b).map (fun j => lines.getD j []) := by
  cases b with
  | zero => simp [beforeBlock]
  | succ b0 =>
    have h1 : (0 : Nat) < b0 + 1 := Nat.succ_pos b0
    have h2 : 1 ≤ i := by omega
    rw [beforeBlock, if_pos ⟨h1, h2⟩, beforeIdxs]
    have htw : (List.range' 1 (b0 + 1)).takeWhile (fun k => decide (k ≤ i)) =
        List.range' 1 (b0 + 1) := by
      rw [List.takeWhile_eq_self_iff]
      intro x hx
      have hxr := List.mem_range'_1.mp hx
      exact decide_eq_true (by omega)
    rw [htw, rev_map_range i (b0 + 1) 1 (by omega)]
    congr 2
    omega

lemma afterBlock_eq (lines : List (List Char)) (a i : Nat) (ha : i + a < lines.length) :
    afterBlock lines a i = (List.range' (i + 1) a).map (fun j => lines.getD j []) := by
  cases a with
  | zero => simp [afterBlock]
  | succ a0 =>
    rw [afterBlock, if_pos (Nat.succ_pos a0)]
    have hf : (List.range' 1 (a0 + 1)).filter (fun k => decide (i + k < lines.length)) =
        List.range' 1 (a0 + 1) := by
      rw [List.filter_eq_self]
      intro x hx
      have hxr := List.mem_range'_1.mp hx
      exact decide_eq_true (by omega)
    rw [hf, getD_range_shift lines i (a0 + 1) 1]

lemma windowsConcat_single (cfg : Config) (e : RegexEngine) (lines : List (List Char))
    (i : Nat) (hlen : i < lines.length)
    (hmatch : ∀ j, j < lines.length →
        searchLine cfg e (lines.getD j []) = some (decide (j = i))) :
    windowsConcat cfg e lines lines 0 =
      matchOutput cfg lines i
        (renderFull cfg i (lines.getD i []) (locateLine cfg e (lines.getD i []))) := by
  have hsplit : lines = lines.take i ++ lines.getD i [] :: lines.drop (i + 1) := by
    conv_lhs => rw [← List.take_append_drop i lines]
    rw [List.drop_eq_getElem_cons hlen, List.getD_eq_getElem lines [] hlen]
  have hlt : (lines.take i).length = i := by
    rw [List.length_take]
    omega
  have hnm1 : ∀ l ∈ lines.take i, searchLine cfg e l ≠ some true := by
    intro l hl
    obtain ⟨n, hn, heq⟩ := List.mem_iff_getElem.mp hl
    have hn2 : n < i := by rw [hlt] at hn; exact hn
    have hn3 : n < lines.length := by omega
    rw [List.getElem_take] at heq
    rw [← heq, ← List.getD_eq_getElem lines [] hn3, hmatch n hn3]
    have : decide (n = i) = false := decide_eq_false (by omega)
    rw [this]
    simp
  have hnm2 : ∀ l ∈ lines.drop (i + 1), searchLine cfg e l ≠ some true := by
    intro l hl
    obtain ⟨n, hn, heq⟩ := List.mem_iff_getElem.mp hl
    have hn3 : i + 1 + n < lines.length := by
      rw [List.length_drop] at hn
      omega
    rw [List.getElem_drop] at heq
    rw [← heq, ← List.getD_eq_getElem lines [] hn3, hmatch (i + 1 + n) hn3]
    have : decide (i + 1 + n = i) = false := decide_eq_false (by omega)
    rw [this]
    simp
  have hmi : searchLine cfg e (lines.getD i []) = some true := by
    rw [hmatch i hlen]
    simp
  nth_rewrite 2 [hsplit]
  rw [windowsConcat_append]
  rw [windowsConcat_nomatch cfg e lines (lines.take i) 0 hnm1]
  rw [windowsConcat, if_pos hmi]
  rw [windowsConcat_nomatch cfg e lines (lines.drop (i + 1)) _ hnm2]
  simp [hlt]

/-- C6: in context mode with before b and after a, for every input with a
single isolated match at index i with b ≤ i and i + a < N, exactly b + 1 + a
lines are emitted, in ascending index order: the b lines immediately
preceding i, then the matched highlighted line, then the a lines immediately
following i. -/
theorem claim_C6_context_window (cfg : Config) (e : RegexEngine) (lines : List (List Char))
    (i : Nat) (hsec : cfg.sectionMode = false)
    (hb : cfg.before ≤ i) (ha : i + cfg.after < lines.length)
    (hmatch : ∀ j, j < lines.length →
        searchLine cfg e (lines.getD j []) = some (decide (j = i))) :
    (runMain cfg e lines).stdout =
      (List.range' (i - cfg.before) cfg.before).map (fun j => lines.getD j []) ++
        renderFull cfg i (lines.getD i []) (locateLine cfg e (lines.getD i [])) ::
        (List.range' (i + 1) cfg.after).map (fun j => lines.getD j []) ∧
    (runMain cfg e lines).stdout.length = cfg.before + 1 + cfg.after := by
  have hlen : i < lines.length := by omega
  have hok : ∀ l ∈ lines, searchLine cfg e l ≠ none := by
    intro l hl
    obtain ⟨n, hn, heq⟩ := List.mem_iff_getElem.mp hl
    rw [← heq, ← List.getD_eq_getElem lines [] hn, hmatch n hn]
    simp
  have hout := runMain_stdout_plain cfg e lines hsec hok
  rw [windowsConcat_single cfg e lines i hlen hmatch] at hout
  rw [matchOutput, beforeBlock_eq lines cfg.before i hb, afterBlock_eq lines cfg.after i ha,
    hsec] at hout
  simp only [Bool.false_eq_true, if_false, List.append_assoc, List.singleton_append] at hout
  refine ⟨hout, ?_⟩
  rw [hout]
  simp [List.length_append, List.length_map, List.length_range']
  omega

def cfgC6 : Config :=
  { pattern := "c".data, colorCode := "31".data, bold := true, underline := false,
    italic := false, strike := false, lineNumbers := false, regex := false,
    insensitive := false, after := 1, before := 1, sectionMode := false, tabsC := 4 }

def linesC6 : List (List Char) := ["a".data, "b".data, "c".data, "d".data]

/-- Witness for C6: a four-line input, pattern matching only line 2, one line
of context on each side. -/
theorem claim_C6_witness :
    cfgC6.sectionMode = false ∧ cfgC6.before ≤ 2 ∧ 2 + cfgC6.after < linesC6.length ∧
    (∀ j, j < linesC6.length →
        searchLine cfgC6 engTriv (linesC6.getD j []) = some (decide (j = 2))) ∧
    ((runMain cfgC6 engTriv linesC6).stdout =
      (List.range' (2 - cfgC6.before) cfgC6.before).map (fun j => linesC6.getD j []) ++
        renderFull cfgC6 2 (linesC6.getD 2 []) (locateLine cfgC6 engTriv (linesC6.getD 2 [])) ::
        (List.range' (2 + 1) cfgC6.after).map (fun j => linesC6.getD j []) ∧
     (runMain cfgC6 engTriv linesC6).stdout.length = cfgC6.before + 1 + cfgC6.after) :=
  ⟨rfl, by decide, by decide, by decide,
   claim_C6_context_window cfgC6 engTriv linesC6 2 rfl (by decide) (by decide) (by decide)⟩

def cfgC7 : Config :=
  { pattern := "m".data, colorCode := "31".data, bold := true, underline := false,
    italic := false, strike := false, lineNumbers := false, regex := false,
    insensitive := false, after := 1, before := 0, sectionMode := false, tabsC := 4 }

def linesC7 : List (List Char) := ["m".data, "m".data]

/-- C7: in context mode each match's window is computed and emitted
independently of all other matches (the run's stdout is the plain
concatenation of the per-match windows, with no deduplication); consequently
there are inputs with two matches where a line is printed more than once, as
the concrete two-match run cfgC7/linesC7 shows. -/
theorem claim_C7_independent_windows (cfg : Config) (e : RegexEngine)
    (lines : List (List Char)) (hsec : cfg.sectionMode = false)
    (hok : ∀ l ∈ lines, searchLine cfg e l ≠ none) :
    (runMain cfg e lines).stdout = windowsConcat cfg e lines lines 0 ∧
    ¬ (runMain cfgC7 engTriv linesC7).stdout.Nodup :=
  ⟨runMain_stdout_plain cfg e lines hsec hok, by decide⟩

/-- Witness for C7: the two-match run whose overlapping windows print the
same rendered line twice. -/
theorem claim_C7_witness :
    cfgC7.sectionMode = false ∧
    (∀ l ∈ linesC7, searchLine cfgC7 engTriv l ≠ none) ∧
    ((runMain cfgC7 engTriv linesC7).stdout = windowsConcat cfgC7 engTriv linesC7 linesC7 0 ∧
     ¬ (runMain cfgC7 engTriv linesC7).stdout.Nodup) :=
  ⟨rfl, by decide, claim_C7_independent_windows cfgC7 engTriv linesC7 rfl (by decide)⟩

end MyGrep
